import Mathlib

/-
Verification of the sync-handler cache index (cacheIndex) of wp-calypso.

The source is a single module built on the localforage asynchronous
key-value store.  We embed it shallowly:

  - the store is an association list from string keys to stored values;
  - each cacheIndex method becomes a Lean function on the store;
  - Date.now() is threaded in as an explicit integer argument;
  - the asynchronous methods whose claims concern promise settlement
    (removeRecordsByList and the methods built on it) return, besides the
    final store, the list of primitive store operations they issue, the
    sublist of those operations their returned promise actually awaits,
    and how that promise settles; failing backing-store calls are modelled
    by an explicit failure oracle on primitive operations.
-/

/-- An entry of the persisted records-list index: a record key, the
insertion timestamp (milliseconds since epoch), and the optional
page-series grouping key.  A JS object without the pageSeriesKey field is
modelled with pageSeriesKey = none. -/
structure Record where
  key : String
  timestamp : Int
  pageSeriesKey : Option String := none
deriving DecidableEq, Repr

/-- A value held by the localforage store: the records-list index, or an
opaque record payload (the cache never inspects payload contents). -/
inductive Val where
  | idx : List Record → Val
  | payload : String → Val
deriving DecidableEq, Repr

/-- The persistent key-value store (localforage), as an association list
from keys to values with at most one binding per key maintained by the
primitive operations below. -/
abbrev Store := List (String × Val)

/-- localforage.removeItem: delete every binding of the given key. -/
def storeRemove : Store → String → Store
  | [], _ => []
  | p :: t, k => if p.1 = k then storeRemove t k else p :: storeRemove t k

/-- localforage.setItem: overwrite the value bound to the given key. -/
def storeSet (s : Store) (k : String) (v : Val) : Store :=
  storeRemove s k ++ [(k, v)]

/-- localforage.getItem: the value bound to the given key, none when the
key is absent (localforage resolves to null). -/
def storeGet : Store → String → Option Val
  | [], _ => none
  | p :: t, k => if p.1 = k then some p.2 else storeGet t k

/-- localforage.keys: every key present in the store. -/
def storeKeys (s : Store) : List String := s.map (fun p => p.1)

/-- A primitive store operation issued by the cache. -/
inductive Op where
  | get : String → Op
  | set : String → Val → Op
  | del : String → Op
deriving DecidableEq, Repr

/-- Whether a primitive operation mutates the store. -/
def isMutation : Op → Bool
  | Op.get _ => false
  | Op.set _ _ => true
  | Op.del _ => true

/-- How an asynchronous result (a JS promise) can end up: fulfilled,
rejected, or never settled. -/
inductive Outcome where
  | resolved
  | rejected
  | pending
deriving DecidableEq, Repr

/-- Effect of one primitive operation on the store. -/
def applyOp (s : Store) : Op → Store
  | Op.get _ => s
  | Op.set k v => storeSet s k v
  | Op.del k => storeRemove s k

/-- Run issued operations in issue order; an operation on which the
failure oracle fires rejects without applying its mutation. -/
def runOps (fails : Op → Bool) (s : Store) (ops : List Op) : Store :=
  ops.foldl (fun st o => if fails o then st else applyOp st o) s

/-- The failure oracle under which every backing-store call succeeds. -/
def noFail : Op → Bool := fun _ => false

/-- The fixed key under which the index is persisted. -/
def RECORDS_LIST_KEY : String := "records-list"

/-- A JS word character, the character class of the backslash-w escape in
the SYNC_RECORD_REGEX pattern: ASCII letters, digits and underscore. -/
def isWordChar (c : Char) : Bool := c.isAlpha || c.isDigit || c == '_'

/-- isSyncRecordKey: whether the key matches the anchored pattern
sync-record- followed by one or more word characters and nothing else. -/
def isSyncRecordKey (k : String) : Bool :=
  k.startsWith "sync-record-" && !((k.drop 12) == "") && (k.drop 12).all isWordChar

namespace cacheIndex

/-- cacheIndex.getAll: localforage.getItem(RECORDS_LIST_KEY).  Yields the
stored index list; when the key was never written localforage resolves to
null, modelled as none.  It issues only the read in getAllOps. -/
def getAll (s : Store) : Option (List Record) :=
  match storeGet s RECORDS_LIST_KEY with
  | some (Val.idx l) => some l
  | _ => none

/-- Store operations issued by getAll: the single read of the index. -/
def getAllOps : List Op := [Op.get RECORDS_LIST_KEY]

/-- lodash filter applied to a possibly-null collection: lodash treats
null as the empty collection. -/
def lodashFilter (p : Record → Bool) (records : Option (List Record)) : List Record :=
  (records.getD []).filter p

/-- dropMatches inside getAllExcluding:
filter(records, negate(matchesProperty(key))) keeps the entries whose key
field differs from the given key. -/
def dropMatches (key : String) (records : Option (List Record)) : List Record :=
  lodashFilter (fun r => !(r.key == key)) records

/-- cacheIndex.getAllExcluding: getAll followed by dropMatches; reads the
store and mutates nothing. -/
def getAllExcluding (s : Store) (key : String) : List Record :=
  dropMatches key (getAll s)

/-- JS truthiness of the optional pageSeriesKey argument: the default
null and the empty string are falsy, any other string is truthy. -/
def truthy : Option String → Bool
  | none => false
  | some g => !(g == "")

/-- cacheIndex.addItem: computes getAllExcluding(key), builds the record
with key and timestamp Date.now(), sets its pageSeriesKey field only when
the argument is truthy, and persists the old entries with the fresh
record appended under RECORDS_LIST_KEY. -/
def addItem (now : Int) (s : Store) (key : String) (pageSeriesKey : Option String) : Store :=
  let records := getAllExcluding s key
  let record : Record :=
    { key := key, timestamp := now,
      pageSeriesKey := if truthy pageSeriesKey then pageSeriesKey else none }
  storeSet s RECORDS_LIST_KEY (Val.idx (records ++ [record]))

/-- cacheIndex.removeItem: persists getAllExcluding(key) as the new
index.  The payload stored under key is not touched. -/
def removeItem (s : Store) (key : String) : Store :=
  storeSet s RECORDS_LIST_KEY (Val.idx (getAllExcluding s key))

/-- Store operations issued by removeItem: the index read and the index
rewrite; no deletion is ever issued. -/
def removeItemOps (s : Store) (key : String) : List Op :=
  [Op.get RECORDS_LIST_KEY,
   Op.set RECORDS_LIST_KEY (Val.idx (getAllExcluding s key))]

/-- The pair produced by the partitioning helpers: the entries to drop
and the entries to keep. -/
structure Partition where
  removedRecords : List Record
  retainedRecords : List Record
deriving DecidableEq, Repr

/-- lodash difference(l1, l2): the elements of l1 that do not occur in
l2.  In the source l2 is always the sublist just filtered out of l1, so
membership coincides with the reference-based SameValueZero test lodash
performs. -/
def jsDifference (l1 l2 : List Record) : List Record :=
  l1.filter (fun r => decide (¬ r ∈ l2))

/-- dropElders inside dropOlderThan: removedRecords is
filter(records, Date.now() - lifetime > timestamp) and retainedRecords is
difference(records, removedRecords); a null index is treated as empty by
both lodash helpers. -/
def dropElders (now lifetime : Int) (records : Option (List Record)) : Partition :=
  let removedRecords := lodashFilter (fun r => decide (now - lifetime > r.timestamp)) records
  { removedRecords := removedRecords,
    retainedRecords := jsDifference (records.getD []) removedRecords }

/-- cacheIndex.dropOlderThan: reads the index and partitions it with
dropElders; pure read plus compute, no mutation (see dropOlderThanOps). -/
def dropOlderThan (now lifetime : Int) (s : Store) : Partition :=
  dropElders now lifetime (getAll s)

/-- Store operations issued by dropOlderThan: the single index read. -/
def dropOlderThanOps : List Op := [Op.get RECORDS_LIST_KEY]

/-- Result of an asynchronous bulk operation: the final store once every
issued backing-store call has run, the operations issued, the operations
the returned promise actually awaits, and how that promise settles. -/
structure AsyncResult where
  store : Store
  issued : List Op
  awaited : List Op
  outcome : Outcome
deriving Repr

/-- cacheIndex.removeRecordsByList, faithful to the source:
  - when removedRecords is empty the executor returns debug(...) without
    calling resolve, so nothing is issued and the promise never settles;
  - otherwise localforage.removeItem is started for each removed key and
    localforage.setItem persists retainedRecords, but the map callback has
    a braced body with no return statement, so droppedPromises is a list
    of undefined values and Promise.all awaits only the setItem promise;
  - the executor declares no reject, so when the awaited setItem fails
    Promise.all rejects, the then-callback calling resolve never runs, and
    the promise stays pending forever; a failed deletion is never awaited
    and never surfaced. -/
def removeRecordsByList (fails : Op → Bool) (s : Store) (data : Partition) : AsyncResult :=
  if data.removedRecords.length == 0 then
    { store := s, issued := [], awaited := [], outcome := Outcome.pending }
  else
    let droppedOps := data.removedRecords.map (fun item => Op.del item.key)
    let recordsListOp := Op.set RECORDS_LIST_KEY (Val.idx data.retainedRecords)
    { store := runOps fails s (droppedOps ++ [recordsListOp]),
      issued := droppedOps ++ [recordsListOp],
      awaited := [recordsListOp],
      outcome := if fails recordsListOp then Outcome.pending else Outcome.resolved }

/-- cacheIndex.pruneRecordsFrom:
dropOlderThan(lifetime).then(removeRecordsByList).  A numeric lifetime is
used directly as milliseconds; the string branch of the source converts a
duration string to the same number via the ms library and is not modelled
further.  The issued operations are the index read followed by whatever
removeRecordsByList issues; the returned promise is the one produced by
removeRecordsByList. -/
def pruneRecordsFrom (fails : Op → Bool) (now lifetime : Int) (s : Store) : AsyncResult :=
  let r := removeRecordsByList fails s (dropOlderThan now lifetime s)
  { r with issued := Op.get RECORDS_LIST_KEY :: r.issued }

/-- cacheIndex.clearAll: localforage.keys(), keep the keys matching
isSyncRecordKey, remove each of them, and remove RECORDS_LIST_KEY.  All
removals succeed here; the claims about clearAll concern its scope, not
failure handling. -/
def clearAll (s : Store) : Store :=
  let syncHandlerKeys := (storeKeys s).filter isSyncRecordKey
  storeRemove (syncHandlerKeys.foldl storeRemove s) RECORDS_LIST_KEY

/-- Request parameters, as an association of field names to values. -/
abbrev ReqParams := List (String × String)

/-- lodash omit of one field: drop every binding of that field name. -/
def jsOmit (params : ReqParams) (field : String) : ReqParams :=
  params.filter (fun p => !(p.1 == field))

/-- Modelled from the spec: generateKey, required by clearPageSeries from
the sibling sync-handler module at call time, is not among the given
sources; the spec describes it as a deterministic fingerprint function
over a parameters mapping.  Determinism is all the claims use, so the
fingerprint is taken as an explicit function parameter gk, and
derivePageSeriesKey applies it exactly as the source does: to the request
parameters with the next_page pagination-cursor field omitted. -/
def derivePageSeriesKey (gk : ReqParams → String) (reqParams : ReqParams) : String :=
  gk (jsOmit reqParams "next_page")

/-- pickPageSeries inside clearPageSeries: removedRecords is
filter(records, record.pageSeriesKey === pageSeriesKey) — an entry whose
pageSeriesKey field is absent compares unequal to every string — and
retainedRecords is difference(records, removedRecords). -/
def pickPageSeries (pageSeriesKey : String) (records : Option (List Record)) : Partition :=
  let removedRecords :=
    lodashFilter (fun r => r.pageSeriesKey == some pageSeriesKey) records
  { removedRecords := removedRecords,
    retainedRecords := jsDifference (records.getD []) removedRecords }

/-- cacheIndex.clearPageSeries: derives the page-series key from the
request parameters, partitions the index with pickPageSeries and routes
the partition through removeRecordsByList; the outer promise resolves
exactly when that chain does, so the AsyncResult is the one
removeRecordsByList produces (plus the initial index read). -/
def clearPageSeries (gk : ReqParams → String) (fails : Op → Bool)
    (s : Store) (reqParams : ReqParams) : AsyncResult :=
  let r := removeRecordsByList fails s
    (pickPageSeries (derivePageSeriesKey gk reqParams) (getAll s))
  { r with issued := Op.get RECORDS_LIST_KEY :: r.issued }

/-- The keys of the currently persisted index, the empty list when the
index is absent. -/
def indexKeys (s : Store) : List String :=
  ((getAll s).getD []).map (fun r => r.key)

/-- The uniqueness invariant of the data model: at most one index entry
per distinct key. -/
def IndexUnique (s : Store) : Prop := (indexKeys s).Nodup

/-- A sequence of addItem calls, each with its own Date.now() value,
applied in order. -/
def addItems (s : Store) (calls : List (Int × String × Option String)) : Store :=
  calls.foldl (fun st c => addItem c.1 st c.2.1 c.2.2) s

end cacheIndex

/-- Fixture records used by the concrete witnesses below. -/
def recA2 : Record := { key := "sync-record-a2", timestamp := 95, pageSeriesKey := some "groupA" }

def recA3 : Record := { key := "sync-record-a3", timestamp := 96, pageSeriesKey := some "groupA" }

def recB : Record := { key := "sync-record-b", timestamp := 40, pageSeriesKey := some "groupB" }

def recU : Record := { key := "sync-record-u", timestamp := 90 }

/-- Fixture store: a populated index under the records-list key, the
payloads of the indexed records, and one unrelated key. -/
def fixtureStore : Store :=
  [(RECORDS_LIST_KEY, Val.idx [recA2, recB, recA3, recU]),
   ("sync-record-a2", Val.payload "p2"),
   ("sync-record-a3", Val.payload "p3"),
   ("sync-record-b", Val.payload "pb"),
   ("sync-record-u", Val.payload "pu"),
   ("unrelated-key", Val.payload "px")]

/-- Failure oracle for the C2 analysis: exactly the payload deletion of
sync-record-a2 fails, everything else succeeds. -/
def delFails : Op → Bool := fun o => o == Op.del "sync-record-a2"

/-- Failure oracle for the C2 analysis: every index rewrite fails. -/
def setFails : Op → Bool := fun o =>
  match o with
  | Op.set _ _ => true
  | _ => false

theorem storeGet_storeRemove (s : Store) (k k2 : String) :
    storeGet (storeRemove s k) k2 = if k2 = k then none else storeGet s k2 := by
  induction s with
  | nil => simp [storeRemove, storeGet]
  | cons p t ih =>
    simp only [storeRemove]
    by_cases h1 : p.1 = k <;> by_cases h2 : k2 = k <;> by_cases h3 : p.1 = k2 <;>
      simp_all [storeGet]

theorem storeGet_append_left (s1 s2 : Store) (k : String) (v : Val)
    (h : storeGet s1 k = some v) : storeGet (s1 ++ s2) k = some v := by
  induction s1 with
  | nil => simp [storeGet] at h
  | cons p t ih =>
    by_cases hp : p.1 = k
    · simp [storeGet, hp] at h ⊢; exact h
    · simp [storeGet, hp] at h ⊢; exact ih h

theorem storeGet_append_right (s1 s2 : Store) (k : String)
    (h : storeGet s1 k = none) : storeGet (s1 ++ s2) k = storeGet s2 k := by
  induction s1 with
  | nil => simp
  | cons p t ih =>
    by_cases hp : p.1 = k
    · simp [storeGet, hp] at h
    · simp [storeGet, hp] at h ⊢; exact ih h

theorem storeGet_storeSet (s : Store) (k k2 : String) (v : Val) :
    storeGet (storeSet s k v) k2 = if k2 = k then some v else storeGet s k2 := by
  by_cases h : k2 = k
  · subst h
    have hrem : storeGet (storeRemove s k2) k2 = none := by
      simp [storeGet_storeRemove]
    simp only [storeSet, if_pos rfl]
    rw [storeGet_append_right _ _ _ hrem]
    simp [storeGet]
  · have hrem : storeGet (storeRemove s k) k2 = storeGet s k2 := by
      simp [storeGet_storeRemove, h]
    simp only [storeSet, if_neg h]
    cases hv : storeGet s k2 with
    | none =>
      rw [storeGet_append_right _ _ _ (hrem.trans hv)]
      simp only [storeGet]
      rw [if_neg (fun hc => h hc.symm)]
    | some w => exact storeGet_append_left _ _ _ _ (hrem.trans hv)

theorem storeGet_eq_none_of_not_mem (s : Store) (k : String)
    (h : ¬ k ∈ storeKeys s) : storeGet s k = none := by
  induction s with
  | nil => rfl
  | cons p t ih =>
    simp only [storeKeys, List.map_cons, List.mem_cons] at h
    push_neg at h
    simp only [storeGet]
    rw [if_neg (fun hc => h.1 hc.symm)]
    exact ih h.2

theorem storeGet_foldl_storeRemove (ks : List String) (s : Store) (k : String) :
    storeGet (ks.foldl storeRemove s) k = if k ∈ ks then none else storeGet s k := by
  induction ks generalizing s with
  | nil => simp
  | cons a t ih =>
    rw [List.foldl_cons, ih, storeGet_storeRemove]
    by_cases hk : k ∈ t <;> by_cases ha : k = a <;> simp [hk, ha]

theorem storeGet_foldl_dels (ks : List String) (s : Store) (k : String) :
    storeGet ((ks.map Op.del).foldl applyOp s) k =
      if k ∈ ks then none else storeGet s k := by
  have h : (ks.map Op.del).foldl applyOp s = ks.foldl storeRemove s := by
    induction ks generalizing s with
    | nil => rfl
    | cons a t ih => simp [List.foldl_cons, applyOp, ih]
  rw [h, storeGet_foldl_storeRemove]

theorem runOps_noFail (s : Store) (ops : List Op) :
    runOps noFail s ops = ops.foldl applyOp s := by
  simp [runOps, noFail]

theorem getAll_storeSet_idx (s : Store) (l : List Record) :
    cacheIndex.getAll (storeSet s RECORDS_LIST_KEY (Val.idx l)) = some l := by
  simp [cacheIndex.getAll, storeGet_storeSet]

theorem getAllExcluding_eq_filter (s : Store) (k : String) :
    cacheIndex.getAllExcluding s k =
      ((cacheIndex.getAll s).getD []).filter (fun r => !(r.key == k)) := rfl

theorem jsDifference_filter (l : List Record) (p : Record → Bool) :
    cacheIndex.jsDifference l (l.filter p) = l.filter (fun r => !(p r)) := by
  unfold cacheIndex.jsDifference
  apply List.filter_congr
  intro r hr
  by_cases hp : p r = true
  · simp [List.mem_filter, hr, hp]
  · simp [List.mem_filter, hp]

/-- Claim C8: for every Index state and key k, getAllExcluding(k) returns
a sequence with no entry whose key is k, containing every other entry
unchanged, in the same relative order and with the same multiplicity,
and excluding a key that has no entry returns the Index unchanged.
The model of getAllExcluding takes the store and returns only a list:
storage is not mutated. -/
theorem C8_getAllExcluding_correct (s : Store) (k : String) :
    (∀ r, r ∈ cacheIndex.getAllExcluding s k → r.key ≠ k) ∧
    List.Sublist (cacheIndex.getAllExcluding s k) ((cacheIndex.getAll s).getD []) ∧
    (∀ r, r ∈ (cacheIndex.getAll s).getD [] → r.key ≠ k →
      r ∈ cacheIndex.getAllExcluding s k) ∧
    (∀ r, r.key ≠ k →
      (cacheIndex.getAllExcluding s k).count r =
        ((cacheIndex.getAll s).getD []).count r) ∧
    ((∀ r, r ∈ (cacheIndex.getAll s).getD [] → r.key ≠ k) →
      cacheIndex.getAllExcluding s k = (cacheIndex.getAll s).getD []) := by
  rw [getAllExcluding_eq_filter]
  refine ⟨?_, List.filter_sublist _, ?_, ?_, ?_⟩
  · intro r hr
    rcases List.mem_filter.mp hr with ⟨_, hb⟩
    simpa using hb
  · intro r hr hk
    exact List.mem_filter.mpr ⟨hr, by simpa using hk⟩
  · intro r hk
    rw [List.count_filter (by simpa using hk)]
  · intro h
    apply List.filter_eq_self.mpr
    intro r hr
    simpa using h r hr

/-- Claim C8 witness: on the fixture store, excluding a key that has no
index entry returns the index unchanged. -/
theorem C8_witness :
    cacheIndex.getAllExcluding fixtureStore "nope" =
      (cacheIndex.getAll fixtureStore).getD [] :=
  (C8_getAllExcluding_correct fixtureStore "nope").2.2.2.2 (by decide)

/-- Claim C9: removeItem(k) persists the index with the entry for k
filtered out, leaves every store key other than the index key unchanged —
in particular, when k itself is not the index key, the payload stored
under k stays in place — and never issues a deletion operation. -/
theorem C9_removeItem_frame (s : Store) (k : String) :
    cacheIndex.getAll (cacheIndex.removeItem s k) =
      some (((cacheIndex.getAll s).getD []).filter (fun r => !(r.key == k))) ∧
    (∀ k2, k2 ≠ RECORDS_LIST_KEY →
      storeGet (cacheIndex.removeItem s k) k2 = storeGet s k2) ∧
    (k ≠ RECORDS_LIST_KEY → storeGet (cacheIndex.removeItem s k) k = storeGet s k) ∧
    (∀ o, o ∈ cacheIndex.removeItemOps s k → ∀ k2, o ≠ Op.del k2) := by
  refine ⟨?_, ?_, ?_, ?_⟩
  · rw [cacheIndex.removeItem, getAll_storeSet_idx, getAllExcluding_eq_filter]
  · intro k2 hk2
    rw [cacheIndex.removeItem, storeGet_storeSet, if_neg hk2]
  · intro hk
    rw [cacheIndex.removeItem, storeGet_storeSet, if_neg hk]
  · intro o ho k2
    rcases List.mem_cons.mp ho with h | h
    · subst h; simp
    · rcases List.mem_cons.mp h with h2 | h2
      · subst h2; simp
      · simp at h2

/-- Claim C9 witness: removing the index entry for sync-record-b on the
fixture store leaves the payload stored under sync-record-b in place. -/
theorem C9_witness :
    storeGet (cacheIndex.removeItem fixtureStore "sync-record-b") "sync-record-b" =
      some (Val.payload "pb") := by
  have h := (C9_removeItem_frame fixtureStore "sync-record-b").2.2.1 (by decide)
  rw [h]
  decide

/-- Claim C7 counterexample: on a store where the index was never
written, getAll returns none — the null that localforage resolves to —
and not the empty sequence the claim requires. -/
theorem C7_counterexample :
    cacheIndex.getAll ([] : Store) = none ∧
    cacheIndex.getAll ([] : Store) ≠ some [] := by
  decide

/-- Claim C7 amended: getAll returns the persisted index when present
and a null (absent) value — not an empty sequence and not an error —
when the index was never initialized; that null is coerced to the empty
list by the lodash-based consumers such as getAllExcluding; getAll
issues only the read of the index key and mutates nothing. -/
theorem C7_getAll_amended (s : Store) :
    (∀ l, storeGet s RECORDS_LIST_KEY = some (Val.idx l) →
      cacheIndex.getAll s = some l) ∧
    (storeGet s RECORDS_LIST_KEY = none →
      cacheIndex.getAll s = none ∧ ∀ k, cacheIndex.getAllExcluding s k = []) ∧
    (∀ o, o ∈ cacheIndex.getAllOps → isMutation o = false) := by
  refine ⟨?_, ?_, ?_⟩
  · intro l h
    simp [cacheIndex.getAll, h]
  · intro h
    refine ⟨by simp [cacheIndex.getAll, h], ?_⟩
    intro k
    simp [cacheIndex.getAllExcluding, cacheIndex.dropMatches, cacheIndex.lodashFilter,
      cacheIndex.getAll, h]
  · intro o ho
    rcases List.mem_cons.mp ho with h | h
    · subst h; rfl
    · simp at h

/-- Claim C7 witness: on the fixture store the persisted index is
returned as stored. -/
theorem C7_witness :
    cacheIndex.getAll fixtureStore = some [recA2, recB, recA3, recU] :=
  (C7_getAll_amended fixtureStore).1 _ (by decide)

theorem filter_age_congr (now lifetime : Int) (l : List Record) :
    l.filter (fun r => decide (now - lifetime > r.timestamp)) =
      l.filter (fun r => decide (now - r.timestamp > lifetime)) := by
  apply List.filter_congr
  intro r _
  rw [decide_eq_decide]
  omega

/-- Claim C4: dropOlderThan(L) partitions the index exactly:
removedRecords are precisely the entries with now - timestamp > L,
retainedRecords precisely the rest, the two concatenated are a
permutation of the original index (multiset union equals the original),
no entry lies in both, and the only store operation issued is the index
read — storage is never mutated. -/
theorem C4_dropOlderThan_partitions (now lifetime : Int) (s : Store) :
    (cacheIndex.dropOlderThan now lifetime s).removedRecords =
      ((cacheIndex.getAll s).getD []).filter
        (fun r => decide (now - r.timestamp > lifetime)) ∧
    (cacheIndex.dropOlderThan now lifetime s).retainedRecords =
      ((cacheIndex.getAll s).getD []).filter
        (fun r => !(decide (now - r.timestamp > lifetime))) ∧
    List.Perm ((cacheIndex.dropOlderThan now lifetime s).removedRecords ++
        (cacheIndex.dropOlderThan now lifetime s).retainedRecords)
      ((cacheIndex.getAll s).getD []) ∧
    (∀ r, ¬(r ∈ (cacheIndex.dropOlderThan now lifetime s).removedRecords ∧
      r ∈ (cacheIndex.dropOlderThan now lifetime s).retainedRecords)) ∧
    (∀ o, o ∈ cacheIndex.dropOlderThanOps → isMutation o = false) := by
  have hrem : (cacheIndex.dropOlderThan now lifetime s).removedRecords =
      ((cacheIndex.getAll s).getD []).filter
        (fun r => decide (now - r.timestamp > lifetime)) := by
    simp only [cacheIndex.dropOlderThan, cacheIndex.dropElders, cacheIndex.lodashFilter]
    exact filter_age_congr now lifetime _
  have hret : (cacheIndex.dropOlderThan now lifetime s).retainedRecords =
      ((cacheIndex.getAll s).getD []).filter
        (fun r => !(decide (now - r.timestamp > lifetime))) := by
    simp only [cacheIndex.dropOlderThan, cacheIndex.dropElders, cacheIndex.lodashFilter]
    rw [jsDifference_filter]
    apply List.filter_congr
    intro r _
    have : (decide (now - lifetime > r.timestamp)) =
        (decide (now - r.timestamp > lifetime)) := by
      rw [decide_eq_decide]; omega
    rw [this]
  refine ⟨hrem, hret, ?_, ?_, ?_⟩
  · rw [hrem, hret]
    exact List.filter_append_perm _ _
  · intro r ⟨h1, h2⟩
    rw [hrem] at h1
    rw [hret] at h2
    rcases List.mem_filter.mp h1 with ⟨_, hb1⟩
    rcases List.mem_filter.mp h2 with ⟨_, hb2⟩
    rw [hb1] at hb2
    simp at hb2
  · intro o ho
    rcases List.mem_cons.mp ho with h | h
    · subst h; rfl
    · simp at h

/-- Claim C4 witness: on the fixture store with now = 100 and lifetime
10, exactly the entry whose age exceeds 10 is removed. -/
theorem C4_witness :
    (cacheIndex.dropOlderThan 100 10 fixtureStore).removedRecords = [recB] := by
  have h := (C4_dropOlderThan_partitions 100 10 fixtureStore).1
  rw [h]
  decide

theorem getAll_addItem (now : Int) (s : Store) (key : String) (g : Option String) :
    cacheIndex.getAll (cacheIndex.addItem now s key g) =
      some (cacheIndex.getAllExcluding s key ++
        [{ key := key, timestamp := now,
           pageSeriesKey := if cacheIndex.truthy g then g else none }]) := by
  simp only [cacheIndex.addItem]
  rw [getAll_storeSet_idx]

theorem indexKeys_addItem (now : Int) (s : Store) (key : String) (g : Option String) :
    cacheIndex.indexKeys (cacheIndex.addItem now s key g) =
      (((cacheIndex.getAll s).getD []).filter
        (fun r => !(r.key == key))).map (fun r => r.key) ++ [key] := by
  simp [cacheIndex.indexKeys, getAll_addItem, getAllExcluding_eq_filter]

theorem IndexUnique_addItem (now : Int) (s : Store) (key : String) (g : Option String)
    (h : cacheIndex.IndexUnique s) :
    cacheIndex.IndexUnique (cacheIndex.addItem now s key g) := by
  unfold cacheIndex.IndexUnique at h ⊢
  rw [indexKeys_addItem, List.nodup_append]
  refine ⟨?_, List.nodup_singleton _, ?_⟩
  · have hsub :
        List.Sublist (((cacheIndex.getAll s).getD []).filter (fun r => !(r.key == key)))
          ((cacheIndex.getAll s).getD []) := List.filter_sublist _
    exact List.Nodup.sublist (hsub.map (fun r => r.key)) h
  · intro a ha hb
    simp only [List.mem_singleton] at hb
    subst hb
    rcases List.mem_map.mp ha with ⟨r, hr, hkey⟩
    rcases List.mem_filter.mp hr with ⟨_, hne⟩
    rw [hkey] at hne
    simp at hne

theorem IndexUnique_addItems (s : Store)
    (calls : List (Int × String × Option String)) (h : cacheIndex.IndexUnique s) :
    cacheIndex.IndexUnique (cacheIndex.addItems s calls) := by
  induction calls generalizing s with
  | nil => exact h
  | cons c t ih =>
    simp only [cacheIndex.addItems, List.foldl_cons]
    exact ih _ (IndexUnique_addItem _ _ _ _ h)

/-- Claim C1: starting from any Index state satisfying the data-model
invariant — at most one entry per key, which in particular covers the
uninitialized store — every sequence of addItem calls leaves a persisted
index with at most one entry per distinct key; moreover each
addItem(key, g) persists exactly the previous entries whose key differs
from the given key with the fresh record appended, so re-adding an
existing key replaces its entry (refreshing the timestamp) instead of
appending a duplicate. -/
theorem C1_addItem_unique (s : Store) (h : cacheIndex.IndexUnique s)
    (calls : List (Int × String × Option String)) :
    cacheIndex.IndexUnique (cacheIndex.addItems s calls) ∧
    ∀ now key g, cacheIndex.getAll (cacheIndex.addItem now s key g) =
      some (((cacheIndex.getAll s).getD []).filter (fun r => !(r.key == key)) ++
        [{ key := key, timestamp := now,
           pageSeriesKey := if cacheIndex.truthy g then g else none }]) := by
  refine ⟨IndexUnique_addItems s calls h, ?_⟩
  intro now key g
  rw [getAll_addItem, getAllExcluding_eq_filter]

/-- Claim C1 witness: three addItem calls from the empty store, two with
the same key, leave an index with pairwise distinct keys. -/
theorem C1_witness :
    cacheIndex.IndexUnique (cacheIndex.addItems ([] : Store)
      [(5, "k1", none), (7, "k1", some "g1"), (9, "k2", some "g1")]) :=
  (C1_addItem_unique [] (by unfold cacheIndex.IndexUnique; decide)
    [(5, "k1", none), (7, "k1", some "g1"), (9, "k2", some "g1")]).1

/-- Claim C10: addItem with a falsy grouping value — the empty string,
like the null default — persists an entry carrying no pageSeriesKey field
at all, equal to the entry an ungrouped call produces; an entry without
the field is never selected by the pickPageSeries filter of
clearPageSeries; and a truthy grouping value is stored unchanged in the
pageSeriesKey field. -/
theorem C10_addItem_falsy_group (now : Int) (s : Store) (key : String) :
    cacheIndex.addItem now s key (some "") = cacheIndex.addItem now s key none ∧
    (∀ A records r, r.pageSeriesKey = none →
      ¬ r ∈ (cacheIndex.pickPageSeries A records).removedRecords) ∧
    (∀ g, g ≠ "" → cacheIndex.getAll (cacheIndex.addItem now s key (some g)) =
      some (cacheIndex.getAllExcluding s key ++
        [{ key := key, timestamp := now, pageSeriesKey := some g }])) := by
  refine ⟨?_, ?_, ?_⟩
  · simp [cacheIndex.addItem, cacheIndex.truthy]
  · intro A records r hnone hr
    simp only [cacheIndex.pickPageSeries, cacheIndex.lodashFilter] at hr
    rcases List.mem_filter.mp hr with ⟨_, hb⟩
    rw [hnone] at hb
    simp at hb
  · intro g hg
    rw [getAll_addItem]
    simp [cacheIndex.truthy, hg]

/-- Claim C10 witness: adding a key with the empty-string grouping value
stores the very entry an ungrouped call stores, and a truthy grouping
value is persisted in the pageSeriesKey field. -/
theorem C10_witness :
    cacheIndex.getAll (cacheIndex.addItem 5 ([] : Store) "sync-record-a" (some "g1")) =
      some (cacheIndex.getAllExcluding ([] : Store) "sync-record-a" ++
        [{ key := "sync-record-a", timestamp := 5, pageSeriesKey := some "g1" }]) :=
  (C10_addItem_falsy_group 5 ([] : Store) "sync-record-a").2.2 "g1" (by decide)

/-- Claim C5: clearAll deletes exactly the store keys matching the
sync-record pattern plus the records-list index key, and leaves every
non-matching store key untouched. -/
theorem C5_clearAll_exact_scope (s : Store) (k : String) :
    storeGet (cacheIndex.clearAll s) k =
      if isSyncRecordKey k ∨ k = RECORDS_LIST_KEY then none else storeGet s k := by
  simp only [cacheIndex.clearAll]
  rw [storeGet_storeRemove, storeGet_foldl_storeRemove]
  by_cases hrl : k = RECORDS_LIST_KEY
  · simp [hrl]
  · by_cases hsync : isSyncRecordKey k
    · by_cases hmem : k ∈ storeKeys s
      · have hin : k ∈ (storeKeys s).filter isSyncRecordKey :=
          List.mem_filter.mpr ⟨hmem, hsync⟩
        simp [hrl, hsync, hin]
      · have hnotin : ¬ k ∈ (storeKeys s).filter isSyncRecordKey :=
          fun hc => hmem (List.mem_filter.mp hc).1
        simp [hrl, hsync, hnotin, storeGet_eq_none_of_not_mem s k hmem]
    · have hnotin : ¬ k ∈ (storeKeys s).filter isSyncRecordKey :=
        fun hc => hsync (List.mem_filter.mp hc).2
      simp [hrl, hsync, hnotin]

/-- Claim C2 evaluated at the failing input: with one record to remove
and a failure oracle on which exactly that payload deletion fails while
everything else succeeds, the promise returned by removeRecordsByList
still resolves — the deletion is among the issued operations but not
among the awaited ones, so its failure is never surfaced to the caller;
and when instead the index rewrite fails, the promise neither resolves
nor rejects but stays pending forever. -/
theorem C2_removeRecordsByList_failure_not_surfaced :
    (cacheIndex.removeRecordsByList delFails fixtureStore
      { removedRecords := [recA2], retainedRecords := [recB, recA3, recU] }).outcome =
        Outcome.resolved ∧
    Op.del "sync-record-a2" ∈ (cacheIndex.removeRecordsByList delFails fixtureStore
      { removedRecords := [recA2], retainedRecords := [recB, recA3, recU] }).issued ∧
    ¬ Op.del "sync-record-a2" ∈ (cacheIndex.removeRecordsByList delFails fixtureStore
      { removedRecords := [recA2], retainedRecords := [recB, recA3, recU] }).awaited ∧
    (cacheIndex.removeRecordsByList setFails fixtureStore
      { removedRecords := [recA2], retainedRecords := [recB, recA3, recU] }).outcome =
        Outcome.pending := by
  decide

/-- Claim C3 counterexample: removeRecordsByList on an empty
removedRecords list issues no store operation but also never calls
resolve — the returned promise stays pending, so the call is not a
completed no-op. -/
theorem C3_counterexample :
    (cacheIndex.removeRecordsByList noFail fixtureStore
      { removedRecords := [], retainedRecords := [recA2, recB, recA3, recU] }).outcome =
        Outcome.pending ∧
    ¬ (cacheIndex.removeRecordsByList noFail fixtureStore
      { removedRecords := [], retainedRecords := [recA2, recB, recA3, recU] }).outcome =
        Outcome.resolved := by
  decide

/-- Claim C3 amended: when no index entry is older than the lifetime,
pruneRecordsFrom leaves the store — in particular the persisted index —
unchanged and issues no payload deletion and no write at all; the empty
removal branch of removeRecordsByList is a logged no-op, not an error,
but the promise it returns never settles, because the early return of
that branch skips resolve. -/
theorem C3_prune_no_stale (fails : Op → Bool) (now lifetime : Int) (s : Store)
    (h : ∀ r, r ∈ (cacheIndex.getAll s).getD [] → now - r.timestamp ≤ lifetime) :
    (cacheIndex.pruneRecordsFrom fails now lifetime s).store = s ∧
    (∀ o, o ∈ (cacheIndex.pruneRecordsFrom fails now lifetime s).issued →
      isMutation o = false) ∧
    (cacheIndex.pruneRecordsFrom fails now lifetime s).outcome = Outcome.pending := by
  have hempty : (cacheIndex.dropOlderThan now lifetime s).removedRecords = [] := by
    simp only [cacheIndex.dropOlderThan, cacheIndex.dropElders, cacheIndex.lodashFilter]
    rw [List.filter_eq_nil_iff]
    intro r hr
    have hage := h r hr
    simp only [decide_eq_true_eq]
    omega
  have hrrbl : cacheIndex.removeRecordsByList fails s
      (cacheIndex.dropOlderThan now lifetime s) =
      { store := s, issued := [], awaited := [], outcome := Outcome.pending } := by
    rw [cacheIndex.removeRecordsByList, hempty]
    simp
  refine ⟨?_, ?_, ?_⟩
  · simp [cacheIndex.pruneRecordsFrom, hrrbl]
  · intro o ho
    simp only [cacheIndex.pruneRecordsFrom, hrrbl] at ho
    rcases List.mem_cons.mp ho with h1 | h1
    · subst h1; rfl
    · simp at h1
  · simp [cacheIndex.pruneRecordsFrom, hrrbl]

/-- Claim C3 witness: pruning the fixture store with a lifetime larger
than every entry age leaves the store exactly as it was. -/
theorem C3_witness :
    (cacheIndex.pruneRecordsFrom noFail 100 1000 fixtureStore).store = fixtureStore :=
  (C3_prune_no_stale noFail 100 1000 fixtureStore (by decide)).1

/-- Claim C6: with the spec-modelled deterministic fingerprint gk, when
the request parameters fingerprint (after removal of the next_page
cursor field) to group key A, the index holds at least one entry tagged
A, and record keys differ from the index storage key, clearPageSeries
deletes exactly the payloads of the A-tagged entries, persists the
remaining entries — B-tagged and ungrouped alike, unchanged and in
order — as the new index, and leaves every other store key untouched. -/
theorem C6_clearPageSeries_exact_scope (gk : cacheIndex.ReqParams → String)
    (reqParams : cacheIndex.ReqParams) (A : String) (s : Store) (rs : List Record)
    (hkey : cacheIndex.derivePageSeriesKey gk reqParams = A)
    (hidx : cacheIndex.getAll s = some rs)
    (hne : ∃ r, r ∈ rs ∧ r.pageSeriesKey = some A)
    (hpay : ∀ r, r ∈ rs → r.key ≠ RECORDS_LIST_KEY) :
    cacheIndex.getAll (cacheIndex.clearPageSeries gk noFail s reqParams).store =
      some (rs.filter (fun r => !(r.pageSeriesKey == some A))) ∧
    (∀ r, r ∈ rs → r.pageSeriesKey = some A →
      storeGet (cacheIndex.clearPageSeries gk noFail s reqParams).store r.key = none) ∧
    (∀ k, k ≠ RECORDS_LIST_KEY →
      (∀ r, r ∈ rs → r.pageSeriesKey = some A → k ≠ r.key) →
      storeGet (cacheIndex.clearPageSeries gk noFail s reqParams).store k =
        storeGet s k) := by
  have hpick : cacheIndex.pickPageSeries (cacheIndex.derivePageSeriesKey gk reqParams)
      (cacheIndex.getAll s) =
      { removedRecords := rs.filter (fun r => r.pageSeriesKey == some A),
        retainedRecords := rs.filter (fun r => !(r.pageSeriesKey == some A)) } := by
    rw [hkey, hidx]
    simp only [cacheIndex.pickPageSeries, cacheIndex.lodashFilter, Option.getD_some]
    rw [jsDifference_filter]
  have hlen : ((rs.filter (fun r => r.pageSeriesKey == some A)).length == 0) = false := by
    rcases hne with ⟨r, hr, hA⟩
    have hmem : r ∈ rs.filter (fun r => r.pageSeriesKey == some A) :=
      List.mem_filter.mpr ⟨hr, by simp [hA]⟩
    cases hcase : rs.filter (fun r => r.pageSeriesKey == some A) with
    | nil => rw [hcase] at hmem; simp at hmem
    | cons a t => simp
  have hstore : (cacheIndex.clearPageSeries gk noFail s reqParams).store =
      storeSet (((rs.filter (fun r => r.pageSeriesKey == some A)).map
          (fun item => Op.del item.key)).foldl applyOp s) RECORDS_LIST_KEY
        (Val.idx (rs.filter (fun r => !(r.pageSeriesKey == some A)))) := by
    simp only [cacheIndex.clearPageSeries, cacheIndex.removeRecordsByList, hpick, hlen,
      Bool.false_eq_true, if_false, runOps_noFail, List.foldl_append, List.foldl_cons,
      List.foldl_nil]
    rfl
  have hmapmap : (rs.filter (fun r => r.pageSeriesKey == some A)).map
      (fun item => Op.del item.key) =
      ((rs.filter (fun r => r.pageSeriesKey == some A)).map
        (fun item => item.key)).map Op.del := by
    rw [List.map_map]
    rfl
  refine ⟨?_, ?_, ?_⟩
  · rw [hstore, getAll_storeSet_idx]
  · intro r hr hA
    rw [hstore, storeGet_storeSet, if_neg (hpay r hr), hmapmap, storeGet_foldl_dels]
    rw [if_pos]
    exact List.mem_map.mpr ⟨r, List.mem_filter.mpr ⟨hr, by simp [hA]⟩, rfl⟩
  · intro k hkrl hknot
    rw [hstore, storeGet_storeSet, if_neg hkrl, hmapmap, storeGet_foldl_dels]
    rw [if_neg]
    intro hc
    rcases List.mem_map.mp hc with ⟨r, hrmem, hrk⟩
    rcases List.mem_filter.mp hrmem with ⟨hrs, hb⟩
    exact hknot r hrs (by simpa using hb) hrk.symm

/-- Claim C6 witness: on the fixture store, with a fingerprint mapping
every parameters list to groupA, exactly the two groupA entries leave
the index; the groupB entry and the ungrouped entry remain, in order. -/
theorem C6_witness :
    cacheIndex.getAll (cacheIndex.clearPageSeries (fun _ => "groupA") noFail
      fixtureStore []).store = some [recB, recU] := by
  have h := (C6_clearPageSeries_exact_scope (fun _ => "groupA") [] "groupA"
    fixtureStore [recA2, recB, recA3, recU] (by decide) (by decide)
    ⟨recA2, by decide, by decide⟩ (by decide)).1
  rw [h]
  decide
